import Mathlib

/-!
# Verification of the Snowflake-style ID generator (`src/id_utils.ts`)

Shallow embedding of the `ID` class from `id_utils.ts`.  The JavaScript
`Date.now()` clock is modelled as a stream `c : Nat → Int` of successive
readings together with an index of the next reading to consume; `BigInt`
arithmetic (`<<`, `|`) is modelled by `Int` together with Mathlib's
two's-complement `Int.lor`, which agrees with JavaScript `BigInt`
semantics; the unbounded busy-wait loop `waitNextMilles` receives explicit
fuel.  `Math.random()`-driven choices in `getUniqueID` are modelled by an
oracle producing an in-range index per character position.
-/

namespace NodeCustomUtils

/-- `ID.EPOCH`: Unix timestamp (ms) for 2021-07-01T00:00:00Z. -/
def EPOCH : Int := 1625097600000

/-- `ID.MACHINE_ID_BITS`. -/
def MACHINE_ID_BITS : Nat := 5

/-- `ID.SEQUENCE_BITS`. -/
def SEQUENCE_BITS : Nat := 12

/-- `ID.MAX_MACHINE_ID = (1 << MACHINE_ID_BITS) - 1`. -/
def MAX_MACHINE_ID : Int := (1 <<< MACHINE_ID_BITS) - 1

/-- `ID.MAX_SEQUENCE = (1 << SEQUENCE_BITS) - 1`. -/
def MAX_SEQUENCE : Nat := (1 <<< SEQUENCE_BITS) - 1

/-- The process-wide mutable state of the generator:
`ID.lastTimestamp` and `ID.sequence`. -/
structure GenState where
  lastTimestamp : Int
  sequence : Nat
deriving Repr, DecidableEq

/-- The initial static state: `lastTimestamp = -1`, `sequence = 0`. -/
def initState : GenState := ⟨-1, 0⟩

/-- `ID` constructor: rejects a machine ID outside `[0, MAX_MACHINE_ID]`
(the thrown `Error` is modelled by `none`), otherwise stores it. -/
def mkID (machineId : Int) : Option Int :=
  if machineId < 0 ∨ machineId > MAX_MACHINE_ID then none
  else some machineId

/-- `ID.waitNextMilles`: re-reads the clock until the reading exceeds
`last`, returning that reading and the next clock index.  The source loop
is unbounded; `fuel` bounds it here, `none` standing for divergence. -/
def waitNextMilles (c : Nat → Int) (last : Int) : Nat → Nat → Option (Int × Nat)
  | _, 0 => none
  | i, fuel + 1 =>
    let timestamp := c i
    if timestamp ≤ last then waitNextMilles c last (i + 1) fuel
    else some (timestamp, i + 1)

/-- The `BigInt` packing on line 79-82 of the source:
`(timestamp << (MACHINE_ID_BITS + SEQUENCE_BITS)) | (machineId << SEQUENCE_BITS) | sequence`. -/
def packID (timestamp machineId sequence : Int) : Int :=
  Int.lor
    (Int.lor (timestamp <<< ((MACHINE_ID_BITS + SEQUENCE_BITS : Nat) : Int))
      (machineId <<< ((SEQUENCE_BITS : Nat) : Int)))
    sequence

/-- Outcome of one `getSnowflakeID()` call: a produced ID with the updated
static state and next clock index, a thrown clock-regression `Error`
(carrying the state and clock index at the throw), or divergence of the
busy-wait loop (carrying the state at the time of the spin). -/
inductive GenResult where
  | ok (id : Int) (state : GenState) (next : Nat)
  | err (state : GenState) (next : Nat)
  | spin (state : GenState)
deriving Repr, DecidableEq

/-- The static state after a call, whatever the outcome. -/
def resultState : GenResult → GenState
  | GenResult.ok _ s _ => s
  | GenResult.err s _ => s
  | GenResult.spin s => s

/-- `ID.getSnowflakeID`, one call: reads the clock at index `i`, then
follows the source line by line.  Note that on sequence wraparound the
source assigns `timestamp = waitNextMilles(lastTimestamp)`, i.e. a raw
`Date.now()` reading that is *not* reduced by `EPOCH`. -/
def getSnowflakeID (machineId : Int) (c : Nat → Int) (fuel : Nat)
    (s : GenState) (i : Nat) : GenResult :=
  let timestamp := c i - EPOCH
  if timestamp < s.lastTimestamp then
    GenResult.err s (i + 1)
  else if timestamp = s.lastTimestamp then
    let sequence := (s.sequence + 1) &&& MAX_SEQUENCE
    if sequence = 0 then
      match waitNextMilles c s.lastTimestamp (i + 1) fuel with
      | none => GenResult.spin ⟨s.lastTimestamp, sequence⟩
      | some (ts, i2) =>
        GenResult.ok (packID ts machineId (sequence : Int)) ⟨ts, sequence⟩ i2
    else
      GenResult.ok (packID timestamp machineId (sequence : Int)) ⟨timestamp, sequence⟩ (i + 1)
  else
    GenResult.ok (packID timestamp machineId ((0 : Nat) : Int)) ⟨timestamp, 0⟩ (i + 1)

/-- Line 84 of the source: the returned value is the decimal string
rendering of the packed `BigInt`. -/
def snowflakeString : GenResult → Option String
  | GenResult.ok id _ _ => some (toString id)
  | _ => none

/-- Runs `n` successive `getSnowflakeID()` calls, returning the issued IDs
together with the final state and clock index; `none` if any call throws
or spins. -/
def runCalls (machineId : Int) (c : Nat → Int) (fuel : Nat) :
    Nat → GenState → Nat → Option (List Int × GenState × Nat)
  | 0, s, i => some ([], s, i)
  | n + 1, s, i =>
    match getSnowflakeID machineId c fuel s i with
    | GenResult.ok id s2 i2 =>
      match runCalls machineId c fuel n s2 i2 with
      | some (ids, s3, i3) => some (id :: ids, s3, i3)
      | none => none
    | _ => none

/-- Like `runCalls` but keeping only the final state and clock index. -/
def stepCalls (machineId : Int) (c : Nat → Int) (fuel : Nat) :
    Nat → GenState → Nat → Option (GenState × Nat)
  | 0, s, i => some (s, i)
  | n + 1, s, i =>
    match getSnowflakeID machineId c fuel s i with
    | GenResult.ok _ s2 i2 => stepCalls machineId c fuel n s2 i2
    | _ => none

/-- Timestamp field of an ID: bits 17 and above. -/
def decodeTimestamp (id : Int) : Int :=
  id / 2 ^ (MACHINE_ID_BITS + SEQUENCE_BITS)

/-- Machine-ID field of an ID: bits 12..16, i.e. `(id >> 12) mod 32`. -/
def decodeMachineId (id : Int) : Int :=
  (id / 2 ^ SEQUENCE_BITS) % 2 ^ MACHINE_ID_BITS

/-- Sequence field of an ID: bits 0..11. -/
def decodeSequence (id : Int) : Int :=
  id % 2 ^ SEQUENCE_BITS

/-- Strict lexicographic order on the decoded `(timestamp, sequence)`
pairs of two IDs. -/
def idLexLt (a b : Int) : Prop :=
  decodeTimestamp a < decodeTimestamp b ∨
    (decodeTimestamp a = decodeTimestamp b ∧ decodeSequence a < decodeSequence b)

/-! ## Bit-level characterisation of `packID`

Mathlib's `Int.lor` and `<<<` on `Int` are two's-complement and agree with
JavaScript `BigInt` `|` and `<<`, also on negative operands. -/

theorem MAX_MACHINE_ID_eq : MAX_MACHINE_ID = 31 := by decide

theorem MAX_SEQUENCE_eq : MAX_SEQUENCE = 4095 := by decide

/-- Clearing the low `k` bits of a block of ones subtracts. -/
theorem ldiff_block (x y k : Nat) (hy : y < 2 ^ k) :
    Nat.ldiff (2 ^ k * x + (2 ^ k - 1)) y = 2 ^ k * x + (2 ^ k - 1 - y) := by
  have hp : 0 < 2 ^ k := Nat.two_pow_pos k
  have hb1 : 2 ^ k - 1 < 2 ^ k := by omega
  have hb2 : 2 ^ k - 1 - y < 2 ^ k := by omega
  apply Nat.eq_of_testBit_eq
  intro j
  rw [Nat.testBit_ldiff, Nat.testBit_mul_pow_two_add _ hb1,
    Nat.testBit_mul_pow_two_add _ hb2]
  by_cases hj : j < k
  · have he : 2 ^ k - 1 - y = 2 ^ k - (y + 1) := by omega
    rw [if_pos hj, if_pos hj, he, Nat.testBit_two_pow_sub_succ hy,
      Nat.testBit_two_pow_sub_one]
  · have hyj : Nat.testBit y j = false := by
      apply Nat.testBit_lt_two_pow
      exact lt_of_lt_of_le hy (Nat.pow_le_pow_right (by norm_num) (by omega))
    rw [if_neg hj, if_neg hj, hyj]
    simp

/-- Two's-complement `or` of a multiple of `2 ^ k` with a `k`-bit value is
addition, for either sign of the first operand (matching `BigInt`). -/
theorem int_mul_pow_lor (t : Int) (k : Nat) (y : Nat) (hy : y < 2 ^ k) :
    Int.lor (t * 2 ^ k) (y : Int) = t * 2 ^ k + (y : Int) := by
  cases t with
  | ofNat a =>
    have e1 : (Int.ofNat a) * 2 ^ k = ((a * 2 ^ k : Nat) : Int) := by
      simp [Int.ofNat_eq_coe]
    have e2 : Int.lor ((a * 2 ^ k : Nat) : Int) ((y : Nat) : Int) =
        (((a * 2 ^ k) ||| y : Nat) : Int) := rfl
    rw [e1, e2, Nat.mul_comm a, ← Nat.mul_add_lt_is_or hy a]
    push_cast
    ring
  | negSucc a =>
    have hp : 0 < 2 ^ k := Nat.two_pow_pos k
    have hdecomp : (a + 1) * 2 ^ k - 1 = 2 ^ k * a + (2 ^ k - 1) := by
      have h : (a + 1) * 2 ^ k = 2 ^ k * a + 2 ^ k := by ring
      omega
    have e1 : Int.negSucc a * 2 ^ k = Int.negSucc (2 ^ k * a + (2 ^ k - 1)) := by
      rw [Int.negSucc_eq, Int.negSucc_eq]
      have h1 : (1 : Nat) ≤ 2 ^ k := hp
      push_cast [Nat.cast_sub h1]
      ring
    have e2 : Int.lor (Int.negSucc (2 ^ k * a + (2 ^ k - 1))) ((y : Nat) : Int) =
        Int.negSucc (Nat.ldiff (2 ^ k * a + (2 ^ k - 1)) y) := rfl
    rw [e1, e2, ldiff_block a y k hy, Int.negSucc_eq, Int.negSucc_eq]
    have h1 : (1 : Nat) ≤ 2 ^ k := hp
    have h2 : y ≤ 2 ^ k - 1 := by omega
    push_cast [Nat.cast_sub h2, Nat.cast_sub h1]
    ring

/-- The `BigInt` packing equals plain place-value arithmetic whenever the
machine ID and sequence are in range, for any (even negative) timestamp. -/
theorem packID_eq (t m : Int) (q : Nat) (hm0 : 0 ≤ m) (hm : m ≤ MAX_MACHINE_ID)
    (hq : q ≤ MAX_SEQUENCE) :
    packID t m (q : Int) = t * 131072 + m * 4096 + (q : Int) := by
  have hMM := MAX_MACHINE_ID_eq
  have hMS := MAX_SEQUENCE_eq
  obtain ⟨b, rfl⟩ := Int.eq_ofNat_of_zero_le hm0
  have hb : b ≤ 31 := by
    rw [hMM] at hm
    exact_mod_cast hm
  have hq' : q ≤ 4095 := by omega
  unfold packID
  have hbits : ((MACHINE_ID_BITS + SEQUENCE_BITS : Nat) : Int) = ((17 : Nat) : Int) := by
    norm_num [MACHINE_ID_BITS, SEQUENCE_BITS]
  have hbits2 : ((SEQUENCE_BITS : Nat) : Int) = ((12 : Nat) : Int) := by
    norm_num [SEQUENCE_BITS]
  have eB : ((b : Nat) : Int) <<< ((12 : Nat) : Int) = ((b * 4096 : Nat) : Int) := by
    rw [Int.shiftLeft_coe_nat]
    norm_num [Nat.shiftLeft_eq]
  have eA : t <<< ((17 : Nat) : Int) = t * 2 ^ 17 := by
    rw [Int.shiftLeft_eq_mul_pow]
    norm_num
  rw [hbits, hbits2, eA, eB]
  have h1 : (b * 4096 : Nat) < 2 ^ 17 := by omega
  rw [int_mul_pow_lor t 17 _ h1]
  have e3 : t * 2 ^ 17 + ((b * 4096 : Nat) : Int) = (t * 2 ^ 5 + ((b : Nat) : Int)) * 2 ^ 12 := by
    push_cast
    ring
  rw [e3]
  have h2 : q < 2 ^ 12 := by omega
  rw [int_mul_pow_lor (t * 2 ^ 5 + ((b : Nat) : Int)) 12 q h2]
  push_cast
  ring

theorem decodeTimestamp_packID (t m : Int) (q : Nat) (hm0 : 0 ≤ m)
    (hm : m ≤ MAX_MACHINE_ID) (hq : q ≤ MAX_SEQUENCE) :
    decodeTimestamp (packID t m (q : Int)) = t := by
  rw [decodeTimestamp, packID_eq t m q hm0 hm hq]
  have hMM := MAX_MACHINE_ID_eq
  have hMS := MAX_SEQUENCE_eq
  have hm' : m ≤ 31 := by omega
  have hq' : q ≤ 4095 := by omega
  have hqi : ((q : Int)) ≤ 4095 := by exact_mod_cast hq'
  have hq0 : (0 : Int) ≤ (q : Int) := Int.natCast_nonneg q
  norm_num [MACHINE_ID_BITS, SEQUENCE_BITS]
  omega

theorem decodeMachineId_packID (t m : Int) (q : Nat) (hm0 : 0 ≤ m)
    (hm : m ≤ MAX_MACHINE_ID) (hq : q ≤ MAX_SEQUENCE) :
    decodeMachineId (packID t m (q : Int)) = m := by
  rw [decodeMachineId, packID_eq t m q hm0 hm hq]
  have hMM := MAX_MACHINE_ID_eq
  have hMS := MAX_SEQUENCE_eq
  have hm' : m ≤ 31 := by omega
  have hq' : q ≤ 4095 := by omega
  have hqi : ((q : Int)) ≤ 4095 := by exact_mod_cast hq'
  have hq0 : (0 : Int) ≤ (q : Int) := Int.natCast_nonneg q
  norm_num [MACHINE_ID_BITS, SEQUENCE_BITS]
  omega

theorem decodeSequence_packID (t m : Int) (q : Nat) (hm0 : 0 ≤ m)
    (hm : m ≤ MAX_MACHINE_ID) (hq : q ≤ MAX_SEQUENCE) :
    decodeSequence (packID t m (q : Int)) = (q : Int) := by
  rw [decodeSequence, packID_eq t m q hm0 hm hq]
  have hMM := MAX_MACHINE_ID_eq
  have hMS := MAX_SEQUENCE_eq
  have hm' : m ≤ 31 := by omega
  have hq' : q ≤ 4095 := by omega
  have hqi : ((q : Int)) ≤ 4095 := by exact_mod_cast hq'
  have hq0 : (0 : Int) ≤ (q : Int) := Int.natCast_nonneg q
  norm_num [SEQUENCE_BITS]
  omega

/-! ## Behaviour of one `getSnowflakeID()` call -/

/-- The busy-wait loop only returns a clock reading strictly above `last`. -/
theorem waitNextMilles_gt (c : Nat → Int) (last : Int) :
    ∀ (fuel i : Nat) (ts : Int) (j : Nat),
      waitNextMilles c last i fuel = some (ts, j) → last < ts := by
  intro fuel
  induction fuel with
  | zero =>
    intro i ts j h
    simp [waitNextMilles] at h
  | succ fuel ih =>
    intro i ts j h
    rw [waitNextMilles] at h
    split at h
    · exact ih (i + 1) ts j h
    · rename_i hgt
      injection h with h1
      injection h1 with h2 h3
      omega

/-- Case analysis of a successful call: the ID packs the final state's
fields, the final sequence is in range, and the state either moved to a
strictly later timestamp or stayed in the same millisecond with the
sequence stepped by the masked increment (non-zero, else the call would
have waited). -/
theorem getSnowflakeID_ok_cases (machineId : Int) (c : Nat → Int) (fuel : Nat)
    (s : GenState) (i : Nat) (id : Int) (s2 : GenState) (i2 : Nat)
    (h : getSnowflakeID machineId c fuel s i = GenResult.ok id s2 i2) :
    id = packID s2.lastTimestamp machineId (s2.sequence : Int) ∧
    s2.sequence ≤ MAX_SEQUENCE ∧
    (s.lastTimestamp < s2.lastTimestamp ∨
      (s.lastTimestamp = s2.lastTimestamp ∧
        s2.sequence = (s.sequence + 1) &&& MAX_SEQUENCE ∧ s2.sequence ≠ 0)) := by
  rw [getSnowflakeID] at h
  split at h
  · exact absurd h (by simp)
  · rename_i hlt
    split at h
    · rename_i heq
      split at h
      · simp only [] at h
        split at h
        · exact absurd h (by simp)
        · rename_i hwrap0
          injection h with h1 h2 h3
          subst h1
          subst h2
          exact ⟨rfl, Nat.and_le_right, Or.inr ⟨heq.symm, rfl, hwrap0⟩⟩
      · rename_i ts j hwait
        simp only [] at h
        split at h
        · rename_i hwrap
          injection h with h1 h2 h3
          subst h1
          subst h2
          refine ⟨rfl, Nat.and_le_right, Or.inl ?_⟩
          simpa using waitNextMilles_gt c s.lastTimestamp fuel (i + 1) ts j hwait
        · rename_i hwrap0
          injection h with h1 h2 h3
          subst h1
          subst h2
          exact ⟨rfl, Nat.and_le_right, Or.inr ⟨heq.symm, rfl, hwrap0⟩⟩
    · rename_i heq
      injection h with h1 h2 h3
      subst h1
      subst h2
      exact ⟨rfl, Nat.zero_le _, Or.inl (show s.lastTimestamp < c i - EPOCH by omega)⟩

/-- A failing call is exactly a clock regression, and it leaves the state
untouched. -/
theorem getSnowflakeID_err_cases (machineId : Int) (c : Nat → Int) (fuel : Nat)
    (s : GenState) (i : Nat) (s2 : GenState) (i2 : Nat)
    (h : getSnowflakeID machineId c fuel s i = GenResult.err s2 i2) :
    s2 = s ∧ i2 = i + 1 ∧ c i - EPOCH < s.lastTimestamp := by
  rw [getSnowflakeID] at h
  split at h
  · rename_i hlt
    injection h with h1 h2
    exact ⟨h1.symm, h2.symm, hlt⟩
  · split at h
    · split at h
      · simp only [] at h
        split at h
        · exact absurd h (by simp)
        · exact absurd h (by simp)
      · simp only [] at h
        split at h
        · exact absurd h (by simp)
        · exact absurd h (by simp)
    · exact absurd h (by simp)

/-- A clock regression always produces the error outcome. -/
theorem getSnowflakeID_err_of_regression (machineId : Int) (c : Nat → Int)
    (fuel : Nat) (s : GenState) (i : Nat) (hlt : c i - EPOCH < s.lastTimestamp) :
    getSnowflakeID machineId c fuel s i = GenResult.err s (i + 1) := by
  rw [getSnowflakeID]
  split
  · rfl
  · rename_i hn
    exact absurd hlt hn

/-- Whatever the outcome, the sequence field stays in range. -/
theorem getSnowflakeID_sequence_le (machineId : Int) (c : Nat → Int) (fuel : Nat)
    (s : GenState) (i : Nat) (hs : s.sequence ≤ MAX_SEQUENCE) :
    (resultState (getSnowflakeID machineId c fuel s i)).sequence ≤ MAX_SEQUENCE := by
  rw [getSnowflakeID]
  split
  · exact hs
  · split
    · split
      · simp only []
        split
        · exact Nat.and_le_right
        · exact Nat.and_le_right
      · simp only []
        split
        · exact Nat.and_le_right
        · exact Nat.and_le_right
    · exact Nat.zero_le _

/-- A successful call strictly increases `(lastTimestamp, sequence)`
lexicographically, provided the starting sequence is in range. -/
theorem getSnowflakeID_state_lt (machineId : Int) (c : Nat → Int) (fuel : Nat)
    (s : GenState) (i : Nat) (id : Int) (s2 : GenState) (i2 : Nat)
    (hs : s.sequence ≤ MAX_SEQUENCE)
    (h : getSnowflakeID machineId c fuel s i = GenResult.ok id s2 i2) :
    s.lastTimestamp < s2.lastTimestamp ∨
      (s.lastTimestamp = s2.lastTimestamp ∧ s.sequence < s2.sequence) := by
  rcases (getSnowflakeID_ok_cases machineId c fuel s i id s2 i2 h).2.2 with hcase | hcase
  · exact Or.inl hcase
  · refine Or.inr ⟨hcase.1, ?_⟩
    have hmod : s2.sequence = (s.sequence + 1) % 4096 := by
      rw [hcase.2.1]
      have := Nat.and_pow_two_sub_one_eq_mod (s.sequence + 1) 12
      norm_num at this
      rw [MAX_SEQUENCE_eq]
      exact this
    have hne := hcase.2.2
    rw [MAX_SEQUENCE_eq] at hs
    omega

/-- Decoding a successful call's ID recovers the final state's fields and
the configured machine ID. -/
theorem getSnowflakeID_decode (machineId : Int) (c : Nat → Int) (fuel : Nat)
    (s : GenState) (i : Nat) (id : Int) (s2 : GenState) (i2 : Nat)
    (hm0 : 0 ≤ machineId) (hm : machineId ≤ MAX_MACHINE_ID)
    (h : getSnowflakeID machineId c fuel s i = GenResult.ok id s2 i2) :
    decodeTimestamp id = s2.lastTimestamp ∧ decodeMachineId id = machineId ∧
      decodeSequence id = (s2.sequence : Int) := by
  obtain ⟨hid, hseq, -⟩ := getSnowflakeID_ok_cases machineId c fuel s i id s2 i2 h
  subst hid
  exact ⟨decodeTimestamp_packID _ _ _ hm0 hm hseq,
    decodeMachineId_packID _ _ _ hm0 hm hseq,
    decodeSequence_packID _ _ _ hm0 hm hseq⟩

/-! ## Runs of successive calls -/

/-- A successful construction stores the machine ID unchanged, and it is
in range. -/
theorem mkID_eq_some (m v : Int) (h : mkID m = some v) :
    v = m ∧ 0 ≤ m ∧ m ≤ MAX_MACHINE_ID := by
  rw [mkID] at h
  split at h
  · exact absurd h (by simp)
  · rename_i hcond
    push_neg at hcond
    injection h with h1
    exact ⟨h1.symm, hcond.1, hcond.2⟩

/-- The decoded fields of ID `x` strictly dominate state `s`
lexicographically. -/
def stateLtId (s : GenState) (x : Int) : Prop :=
  s.lastTimestamp < decodeTimestamp x ∨
    (s.lastTimestamp = decodeTimestamp x ∧ (s.sequence : Int) < decodeSequence x)

/-- Every ID issued along a successful run dominates the starting state
(when its sequence is in range), and the issued IDs are pairwise strictly
increasing in decoded `(timestamp, sequence)` order. -/
theorem runCalls_pairwise_aux (machineId : Int) (c : Nat → Int) (fuel : Nat)
    (hm0 : 0 ≤ machineId) (hm : machineId ≤ MAX_MACHINE_ID) :
    ∀ (n : Nat) (s : GenState) (i : Nat) (ids : List Int) (sf : GenState) (i2 : Nat),
      runCalls machineId c fuel n s i = some (ids, sf, i2) →
      (s.sequence ≤ MAX_SEQUENCE → ∀ x ∈ ids, stateLtId s x) ∧ ids.Pairwise idLexLt := by
  intro n
  induction n with
  | zero =>
    intro s i ids sf i2 h
    rw [runCalls] at h
    injection h with h1
    injection h1 with ha hb
    subst ha
    simp
  | succ n ih =>
    intro s i ids sf i2 h
    rw [runCalls] at h
    split at h
    · rename_i id s2 i3 hok
      split at h
      · rename_i ids' s3 i4 hrest
        injection h with h1
        injection h1 with ha hb
        subst ha
        have hcases := getSnowflakeID_ok_cases machineId c fuel s i id s2 i3 hok
        have hseq2 : s2.sequence ≤ MAX_SEQUENCE := hcases.2.1
        have hdec := getSnowflakeID_decode machineId c fuel s i id s2 i3 hm0 hm hok
        have hIH := ih s2 i3 ids' s3 i4 hrest
        have hdom2 : ∀ x ∈ ids', stateLtId s2 x := hIH.1 hseq2
        constructor
        · intro hs x hx
          rcases List.mem_cons.mp hx with rfl | hx'
          · have hstep := getSnowflakeID_state_lt machineId c fuel s i x s2 i3 hs hok
            unfold stateLtId
            rw [hdec.1, hdec.2.2]
            rcases hstep with h' | h'
            · exact Or.inl h'
            · exact Or.inr ⟨h'.1, by exact_mod_cast h'.2⟩
          · have hstep := getSnowflakeID_state_lt machineId c fuel s i id s2 i3 hs hok
            have hx2 := hdom2 x hx'
            unfold stateLtId at hx2 ⊢
            omega
        · rw [List.pairwise_cons]
          refine ⟨?_, hIH.2⟩
          intro x hx
          have hx2 := hdom2 x hx
          unfold stateLtId at hx2
          unfold idLexLt
          rw [hdec.1, hdec.2.2]
          exact hx2
      · exact absurd h (by simp)
    · exact absurd h (by simp)

/-! ## Decimal string rendering is injective -/

def digitVal (c : Char) : Nat := c.toNat - 48

def parseDec (l : List Char) : Nat := l.foldl (fun a c => a * 10 + digitVal c) 0

theorem digitVal_digitChar (d : Nat) (hd : d < 10) : digitVal (Nat.digitChar d) = d := by
  interval_cases d <;> rfl

theorem parseDec_toDigitsCore :
    ∀ (fuel n : Nat) (acc : List Char), n < fuel →
      List.foldl (fun a c => a * 10 + digitVal c) 0 (Nat.toDigitsCore 10 fuel n acc) =
        List.foldl (fun a c => a * 10 + digitVal c) n acc := by
  intro fuel
  induction fuel with
  | zero => omega
  | succ f ih =>
    intro n acc hn
    rw [Nat.toDigitsCore]
    split
    · rename_i hdiv
      have hlt : n % 10 < 10 := by omega
      have hsm : n % 10 = n := by omega
      simp only [List.foldl_cons, digitVal_digitChar _ hlt]
      rw [Nat.zero_mul, Nat.zero_add, hsm]
    · rename_i hdiv
      have hrec : n / 10 < f := by omega
      rw [ih (n / 10) _ hrec]
      simp only [List.foldl_cons, digitVal_digitChar _ (by omega : n % 10 < 10)]
      have : n / 10 * 10 + n % 10 = n := by omega
      rw [this]

theorem parseDec_toDigits (n : Nat) : parseDec (Nat.toDigits 10 n) = n := by
  unfold parseDec Nat.toDigits
  rw [parseDec_toDigitsCore (n + 1) n [] (by omega)]
  rfl

theorem toDigits_injective (m n : Nat) (h : Nat.toDigits 10 m = Nat.toDigits 10 n) :
    m = n := by
  have hm := parseDec_toDigits m
  have hn := parseDec_toDigits n
  rw [h] at hm
  omega

theorem toDigitsCore_head :
    ∀ (fuel n : Nat) (acc : List Char),
      (∃ d l, Nat.toDigitsCore 10 fuel n acc = Nat.digitChar d :: l ∧ d < 10) ∨
        Nat.toDigitsCore 10 fuel n acc = acc := by
  intro fuel
  induction fuel with
  | zero =>
    intro n acc
    exact Or.inr rfl
  | succ f ih =>
    intro n acc
    rw [Nat.toDigitsCore]
    split
    · exact Or.inl ⟨n % 10, acc, rfl, by omega⟩
    · rcases ih (n / 10) (Nat.digitChar (n % 10) :: acc) with ⟨d, l, hd, hdlt⟩ | hd
      · exact Or.inl ⟨d, l, hd, hdlt⟩
      · exact Or.inl ⟨n % 10, acc, hd, by omega⟩

theorem digitChar_ne_dash (d : Nat) (hd : d < 10) : Nat.digitChar d ≠ '-' := by
  interval_cases d <;> decide

theorem toDigits_ne_dash_cons (n : Nat) (l : List Char) :
    Nat.toDigits 10 n ≠ '-' :: l := by
  unfold Nat.toDigits
  rcases toDigitsCore_head (n + 1) n [] with ⟨d, l', hd, hdlt⟩ | hd
  · rw [hd]
    intro hcontra
    injection hcontra with h1 h2
    exact digitChar_ne_dash d hdlt h1
  · rw [hd]
    simp

theorem nat_repr_injective (m n : Nat) (h : Nat.repr m = Nat.repr n) : m = n := by
  apply toDigits_injective
  have := congrArg String.data h
  simpa [Nat.repr] using this

theorem int_toString_injective (a b : Int) (h : toString a = toString b) : a = b := by
  cases a with
  | ofNat m =>
    cases b with
    | ofNat n =>
      have h' : Nat.repr m = Nat.repr n := h
      rw [nat_repr_injective m n h']
    | negSucc n =>
      exfalso
      have h' : Nat.repr m = "-" ++ Nat.repr (n + 1) := h
      have hd := congrArg String.data h'
      simp [Nat.repr] at hd
      exact toDigits_ne_dash_cons m _ hd
  | negSucc m =>
    cases b with
    | ofNat n =>
      exfalso
      have h' : "-" ++ Nat.repr (m + 1) = Nat.repr n := h
      have hd := congrArg String.data h'.symm
      simp [Nat.repr] at hd
      exact toDigits_ne_dash_cons n _ hd
    | negSucc n =>
      have h' : "-" ++ Nat.repr (m + 1) = "-" ++ Nat.repr (n + 1) := h
      have hd := congrArg String.data h'
      simp [Nat.repr] at hd
      have hmn : m = n := by
        have := toDigits_injective (m + 1) (n + 1) (by exact hd)
        omega
      rw [hmn]

/-! ## Claim theorems -/

/-- C1: for every sequence of `N ≥ 2` successful sequential
`getSnowflakeID()` calls on one instance with a non-decreasing host clock,
the decoded `(timestamp, sequence)` pairs of the issued IDs are
non-decreasing (in fact strictly increasing) in lexicographic order, and
an ID issued in the same millisecond as an earlier one has a strictly
greater sequence value. -/
theorem snowflake_monotone_pairs (machineId : Int) (c : Nat → Int) (fuel n : Nat)
    (s : GenState) (i : Nat) (ids : List Int) (sf : GenState) (i2 : Nat)
    (hmk : mkID machineId = some machineId)
    (hmono : ∀ j k, j ≤ k → c j ≤ c k)
    (h : runCalls machineId c fuel n s i = some (ids, sf, i2)) :
    ids.Pairwise idLexLt := by
  obtain ⟨-, hm0, hm⟩ := mkID_eq_some machineId machineId hmk
  exact (runCalls_pairwise_aux machineId c fuel hm0 hm n s i ids sf i2 h).2

theorem snowflake_monotone_pairs_witness :
    ([4096, 135168] : List Int).Pairwise idLexLt :=
  snowflake_monotone_pairs 1 (fun j => EPOCH + (j : Int)) 0 2 initState 0
    [4096, 135168] ⟨1, 0⟩ 2 (by decide)
    (by
      intro j k hjk
      simp only []
      omega)
    (by decide)

/-- C2: two distinct successful `getSnowflakeID()` calls in one process,
under a never-backward clock and with no other process sharing the
machine ID (the model is single-process), return distinct decimal
strings. -/
theorem snowflake_ids_distinct (machineId : Int) (c : Nat → Int) (fuel n : Nat)
    (s : GenState) (i : Nat) (ids : List Int) (sf : GenState) (i2 : Nat)
    (hmk : mkID machineId = some machineId)
    (hmono : ∀ j k, j ≤ k → c j ≤ c k)
    (h : runCalls machineId c fuel n s i = some (ids, sf, i2)) :
    (ids.map toString).Pairwise (fun a b => a ≠ b) := by
  obtain ⟨-, hm0, hm⟩ := mkID_eq_some machineId machineId hmk
  have hp := (runCalls_pairwise_aux machineId c fuel hm0 hm n s i ids sf i2 h).2
  refine List.Pairwise.map _ ?_ hp
  intro a b hab hcontra
  have hab' := int_toString_injective a b hcontra
  subst hab'
  unfold idLexLt at hab
  omega

theorem snowflake_ids_distinct_witness :
    (([4096, 135168] : List Int).map toString).Pairwise (fun a b => a ≠ b) :=
  snowflake_ids_distinct 1 (fun j => EPOCH + (j : Int)) 0 2 initState 0
    [4096, 135168] ⟨1, 0⟩ 2 (by decide)
    (by
      intro j k hjk
      simp only []
      omega)
    (by decide)

/-- C4: a call fails (throwing the clock-moved-backwards `Error`) exactly
when the epoch-relative timestamp is strictly below `lastTimestamp`, and a
failing call leaves `lastTimestamp` and `sequence` untouched. -/
theorem clock_regression_iff (machineId : Int) (c : Nat → Int) (fuel : Nat)
    (s : GenState) (i : Nat) :
    (getSnowflakeID machineId c fuel s i = GenResult.err s (i + 1) ↔
      c i - EPOCH < s.lastTimestamp) ∧
    (∀ s2 i2, getSnowflakeID machineId c fuel s i = GenResult.err s2 i2 →
      s2 = s ∧ i2 = i + 1) := by
  refine ⟨⟨fun h => ?_, fun h => ?_⟩, fun s2 i2 h => ?_⟩
  · exact (getSnowflakeID_err_cases machineId c fuel s i s (i + 1) h).2.2
  · exact getSnowflakeID_err_of_regression machineId c fuel s i h
  · have := getSnowflakeID_err_cases machineId c fuel s i s2 i2 h
    exact ⟨this.1, this.2.1⟩

theorem clock_regression_iff_witness :
    getSnowflakeID 0 (fun _ => EPOCH + 3) 1 ⟨5, 7⟩ 0 = GenResult.err ⟨5, 7⟩ 1 :=
  (clock_regression_iff 0 (fun _ => EPOCH + 3) 1 ⟨5, 7⟩ 0).1.mpr (by decide)

/-- C5: a successful call returns the decimal string of
`(timestamp << 17) | (machineId << 12) | sequence` computed from the
state at the end of the call, in arbitrary-precision integer
arithmetic. -/
theorem snowflake_pack_formula (machineId : Int) (c : Nat → Int) (fuel : Nat)
    (s : GenState) (i : Nat) (id : Int) (s2 : GenState) (i2 : Nat)
    (h : getSnowflakeID machineId c fuel s i = GenResult.ok id s2 i2) :
    snowflakeString (getSnowflakeID machineId c fuel s i) =
      some (toString (packID s2.lastTimestamp machineId (s2.sequence : Int))) := by
  rw [h]
  have hid := (getSnowflakeID_ok_cases machineId c fuel s i id s2 i2 h).1
  show some (toString id) = _
  rw [hid]

theorem snowflake_pack_formula_witness :
    snowflakeString (getSnowflakeID 1 (fun j => EPOCH + (j : Int)) 0 initState 0) =
      some (toString (packID 0 1 ((0 : Nat) : Int))) :=
  snowflake_pack_formula 1 (fun j => EPOCH + (j : Int)) 0 initState 0
    4096 ⟨0, 0⟩ 1 (by decide)

/-- C6: construction fails exactly when the machine ID is outside
`[0, MAX_MACHINE_ID] = [0, 31]`, and a successful construction stores the
machine ID unchanged. -/
theorem machineId_range_validation (m : Int) :
    (mkID m = none ↔ m < 0 ∨ MAX_MACHINE_ID < m) ∧
    (∀ v, mkID m = some v → v = m ∧ 0 ≤ m ∧ m ≤ MAX_MACHINE_ID) := by
  refine ⟨⟨fun h => ?_, fun h => ?_⟩, fun v hv => mkID_eq_some m v hv⟩
  · by_contra hcon
    push_neg at hcon
    rw [mkID, if_neg (by omega)] at h
    exact absurd h (by simp)
  · rw [mkID, if_pos h]

theorem machineId_range_validation_witness :
    mkID (-1) = none ∧ mkID 32 = none ∧ mkID 0 = some 0 ∧ mkID 31 = some 31 :=
  ⟨(machineId_range_validation (-1)).1.mpr (by decide),
    (machineId_range_validation 32).1.mpr (by decide),
    by decide, by decide⟩

/-- C7: decoding bits 12..16 of any ID produced under a validly
constructed machine ID recovers exactly that machine ID. -/
theorem machineId_roundtrip (machineId : Int) (c : Nat → Int) (fuel : Nat)
    (s : GenState) (i : Nat) (id : Int) (s2 : GenState) (i2 : Nat)
    (hmk : mkID machineId = some machineId)
    (h : getSnowflakeID machineId c fuel s i = GenResult.ok id s2 i2) :
    decodeMachineId id = machineId := by
  obtain ⟨-, hm0, hm⟩ := mkID_eq_some machineId machineId hmk
  exact (getSnowflakeID_decode machineId c fuel s i id s2 i2 hm0 hm h).2.1

theorem machineId_roundtrip_witness : decodeMachineId 4096 = 1 :=
  machineId_roundtrip 1 (fun j => EPOCH + (j : Int)) 0 initState 0
    4096 ⟨0, 0⟩ 1 (by decide) (by decide)

/-- C8: the sequence counter starts at 0 and every call — whether it
resets the sequence, increments it with wraparound, fails, or spins —
leaves it within `[0, MAX_SEQUENCE] = [0, 4095]` (the lower bound holds
by the `Nat` carrier). -/
theorem sequence_range_invariant (machineId : Int) (c : Nat → Int) (fuel : Nat)
    (s : GenState) (i : Nat) :
    initState.sequence = 0 ∧
    (s.sequence ≤ MAX_SEQUENCE →
      (resultState (getSnowflakeID machineId c fuel s i)).sequence ≤ MAX_SEQUENCE) :=
  ⟨rfl, fun hs => getSnowflakeID_sequence_le machineId c fuel s i hs⟩

theorem sequence_range_invariant_witness :
    initState.sequence = 0 ∧
    (resultState (getSnowflakeID 1 (fun j => EPOCH + (j : Int)) 0 initState 0)).sequence ≤
      MAX_SEQUENCE :=
  ⟨(sequence_range_invariant 1 (fun j => EPOCH + (j : Int)) 0 initState 0).1,
    (sequence_range_invariant 1 (fun j => EPOCH + (j : Int)) 0 initState 0).2 (by decide)⟩

/-! ## The sequence-wraparound unit mismatch (C3) -/

/-- One call inside the same millisecond (no wraparound) increments the
sequence. -/
theorem same_ms_step (k i : Nat) (hk : k + 1 ≤ 4095) :
    getSnowflakeID 0 (fun _ => EPOCH + 5) 1 ⟨5, k⟩ i =
      GenResult.ok (packID 5 0 ((k + 1 : Nat) : Int)) ⟨5, k + 1⟩ (i + 1) := by
  have hand : (k + 1) &&& 4095 = (k + 1) % 4096 := by
    have h := Nat.and_pow_two_sub_one_eq_mod (k + 1) 12
    norm_num at h
    exact h
  have hseq : (k + 1) &&& MAX_SEQUENCE = k + 1 := by
    rw [MAX_SEQUENCE_eq, hand, Nat.mod_eq_of_lt (by omega)]
  rw [getSnowflakeID]
  have he : (EPOCH + 5 - EPOCH : Int) = 5 := by omega
  simp only [he]
  norm_num [hseq]

/-- Running `d` same-millisecond calls advances the sequence by `d`. -/
theorem same_ms_steps :
    ∀ (d k i : Nat), k + d ≤ 4095 →
      stepCalls 0 (fun _ => EPOCH + 5) 1 d ⟨5, k⟩ i = some (⟨5, k + d⟩, i + d) := by
  intro d
  induction d with
  | zero =>
    intro k i hk
    rw [stepCalls]
    norm_num
  | succ d ih =>
    intro k i hk
    rw [stepCalls, same_ms_step k i (by omega)]
    have e1 : k + (d + 1) = k + 1 + d := by omega
    have e2 : i + (d + 1) = i + 1 + d := by omega
    rw [e1, e2]
    exact ih (k + 1) (i + 1) (by omega)

/-- 4096 calls with the clock pinned at `EPOCH + 5` drive the state from
the initial one to `(5, 4095)`. -/
theorem reach_wrap_state :
    stepCalls 0 (fun _ => EPOCH + 5) 1 4096 initState 0 = some (⟨5, 4095⟩, 4096) := by
  rw [stepCalls]
  have h1 : getSnowflakeID 0 (fun _ => EPOCH + 5) 1 initState 0 =
      GenResult.ok (packID 5 0 ((0 : Nat) : Int)) ⟨5, 0⟩ 1 := by decide
  rw [h1]
  exact same_ms_steps 4095 0 1 (by omega)

/-- C3 (defect): after 4096 calls in the simulated millisecond `EPOCH + 5`
the state is `(5, 4095)`; the 4097th call wraps the sequence and — with
the clock still pinned at `EPOCH + 5`, i.e. without the clock ever
advancing past `lastTimestamp` in the epoch-relative unit — immediately
succeeds, adopting the raw reading `1625097600005 = EPOCH + 5` as the new
timestamp instead of the epoch-relative `6`, because `waitNextMilles`
compares and returns raw `Date.now()` values; one millisecond later every
call throws the clock-moved-backwards error. -/
theorem waitNextMilles_unit_mismatch :
    stepCalls 0 (fun _ => EPOCH + 5) 1 4096 initState 0 = some (⟨5, 4095⟩, 4096) ∧
    getSnowflakeID 0 (fun _ => EPOCH + 5) 1 ⟨5, 4095⟩ 4096 =
      GenResult.ok (packID 1625097600005 0 ((0 : Nat) : Int)) ⟨1625097600005, 0⟩ 4098 ∧
    decodeTimestamp (packID 1625097600005 0 ((0 : Nat) : Int)) = 1625097600005 ∧
    getSnowflakeID 0 (fun _ => EPOCH + 6) 1 ⟨1625097600005, 0⟩ 4098 =
      GenResult.err ⟨1625097600005, 0⟩ 4099 :=
  ⟨reach_wrap_state, by decide, by decide, by decide⟩

/-! ## `getUniqueID` -/

/-- The 62-character alphabet from the source. -/
def characters : List Char :=
  "abcdefghijklmnopqrstuvwxyzABCDEFGHIJKLMNOPQRSTUVWXYZ0123456789".toList

/-- The inner `randomStr` closure: one random in-range index per
position, provided by the oracle `r` (JavaScript's
`Math.floor(Math.random() * characters.length)` always lands in
`[0, characters.length)`). -/
def randomStr (r : Nat → Fin characters.length) (length : Nat) : String :=
  String.mk ((List.range length).map fun idx => characters.get (r idx))

/-- Digit characters of JavaScript `Number.prototype.toString(36)`:
`0-9` then `a-z`. -/
def base36DigitChar (n : Nat) : Char :=
  if n < 10 then Char.ofNat (48 + n) else Char.ofNat (87 + n)

/-- Fuelled base-36 digit expansion (most significant first). -/
def toBase36Core : Nat → Nat → List Char → List Char
  | 0, _, acc => acc
  | fuel + 1, n, acc =>
    let d := base36DigitChar (n % 36)
    if n / 36 = 0 then d :: acc else toBase36Core fuel (n / 36) (d :: acc)

/-- JavaScript `timestamp.toString(36)` for an integer timestamp. -/
def intToBase36 (i : Int) : String :=
  if i < 0 then String.mk ('-' :: toBase36Core (i.natAbs + 1) i.natAbs [])
  else String.mk (toBase36Core (i.toNat + 1) i.toNat [])

/-- `ID.getUniqueID`: base-36 timestamp prefix (when requested) followed
by `length` oracle-chosen alphabet characters. -/
def getUniqueID (r : Nat → Fin characters.length) (now : Int)
    (length : Nat := 4) (timeStamp : Bool := true) : String :=
  (if timeStamp then intToBase36 now else "") ++ randomStr r length

/-- C9: `getUniqueID length false` is exactly `length` characters, each
from the 62-character alphabet; `getUniqueID length true` prefixes the
base-36 clock reading; `length = 0` without timestamp gives the empty
string; the function is total (no error path). -/
theorem getUniqueID_shape (r : Nat → Fin characters.length) (now : Int) (length : Nat) :
    (getUniqueID r now length false).length = length ∧
    (∀ ch ∈ (getUniqueID r now length false).data, ch ∈ characters) ∧
    getUniqueID r now length true = intToBase36 now ++ getUniqueID r now length false ∧
    getUniqueID r now 0 false = "" := by
  refine ⟨?_, ?_, rfl, ?_⟩
  · show (randomStr r length).length = length
    simp [randomStr, String.length]
  · intro ch hch
    have hch' : ch ∈ (randomStr r length).data := hch
    simp only [randomStr, List.mem_map, List.mem_range] at hch'
    obtain ⟨idx, -, rfl⟩ := hch'
    exact List.get_mem characters (r idx).1 (r idx).2
  · show ("" ++ randomStr r 0) = ""
    rfl

theorem getUniqueID_shape_witness :
    (getUniqueID (fun _ => ⟨0, by decide⟩) 100 2 false).length = 2 ∧
    getUniqueID (fun _ => ⟨0, by decide⟩) 100 0 false = "" :=
  ⟨(getUniqueID_shape (fun _ => ⟨0, by decide⟩) 100 2).1,
    (getUniqueID_shape (fun _ => ⟨0, by decide⟩) 100 0).2.2.2⟩

/-! ## Frame property of `getUniqueID` (C10) -/

/-- Whole-process state: the shared generator state plus the positions of
the next clock and randomness readings. -/
structure ProcState where
  gen : GenState
  clockIdx : Nat
  rndIdx : Nat
deriving Repr, DecidableEq

/-- Executing `getUniqueID` against the process state: it reads the clock
once and `length` random values.  `ID.lastTimestamp` / `ID.sequence` do
not occur in the source method's body, so the generator state passes
through. -/
def doGetUniqueID (r : Nat → Fin characters.length) (c : Nat → Int)
    (length : Nat) (timeStamp : Bool) (p : ProcState) : String × ProcState :=
  (getUniqueID (fun k => r (p.rndIdx + k)) (c p.clockIdx) length timeStamp,
    ⟨p.gen, p.clockIdx + 1, p.rndIdx + length⟩)

/-- C10: a `getUniqueID` call leaves `lastTimestamp` and `sequence`
exactly as they were, so a `getSnowflakeID` call after it behaves exactly
as it would have before it. -/
theorem getUniqueID_frame (r : Nat → Fin characters.length) (c : Nat → Int)
    (length : Nat) (timeStamp : Bool) (p : ProcState) :
    ((doGetUniqueID r c length timeStamp p).2.gen.lastTimestamp = p.gen.lastTimestamp ∧
      (doGetUniqueID r c length timeStamp p).2.gen.sequence = p.gen.sequence) ∧
    ∀ (machineId : Int) (fuel i : Nat),
      getSnowflakeID machineId c fuel (doGetUniqueID r c length timeStamp p).2.gen i =
        getSnowflakeID machineId c fuel p.gen i :=
  ⟨⟨rfl, rfl⟩, fun _ _ _ => rfl⟩

end NodeCustomUtils
